import Mathlib

/-!
Verification of the SwiftySRP `imath+additions` layer.

The repository's own code (src/imath/imath+additions.c) consists of three
wrapper functions — mp_int_read_const_unsigned, mp_int_init_const_copy,
mp_int_const_copy — that cast away a const qualifier and delegate to the
vendored imath big-integer functions mp_int_read_unsigned, mp_int_init_copy,
mp_int_copy.  The imath functions themselves are not part of the provided
sources, so they are modelled from the specification (sections 3, 4, 6, 7):
an explicit machine state holds byte buffers, mpz structs and digit arrays,
and the modelled operations act on that state, so that frame properties
(the source of a read or copy is left unchanged) and storage independence
(deep copies own fresh digit storage) are genuine statements about the model
rather than artefacts of purity.
-/

/-- Digit radix of the big-integer representation: machine-word digits
(spec section 3, imath's 32-bit digits). -/
def DIGIT_BASE : Nat := 2 ^ 32

/-- Little-endian base-B digit expansion of n, with explicit fuel so that the
recursion is structural (the fuel is always instantiated with n itself). -/
def radixLEFuel (B : Nat) : Nat → Nat → List Nat
  | 0, _ => []
  | f + 1, n => if n = 0 then [] else n % B :: radixLEFuel B f (n / B)

/-- Numeric value of a little-endian base-B digit sequence. -/
def radixVal (B : Nat) (ds : List Nat) : Nat :=
  ds.foldr (fun d acc => d + B * acc) 0

/-- True when the final (most significant) entry of the list is nonzero. -/
def lastNonzero : List Nat → Bool
  | [] => false
  | [d] => d != 0
  | _ :: d :: rest => lastNonzero (d :: rest)

/-- Canonical form of a digit sequence (spec section 3): no non-significant
leading zero digits beyond the single zero digit representing zero itself. -/
def isCanonical (ds : List Nat) : Prop :=
  ds = [0] ∨ lastNonzero ds = true

instance (ds : List Nat) : Decidable (isCanonical ds) := by
  unfold isCanonical; infer_instance

/-- Canonical little-endian digit sequence of a value: zero is the single
digit 0, any other value has no leading zero digits. -/
def mpDigits (n : Nat) : List Nat :=
  if n = 0 then [0] else radixLEFuel DIGIT_BASE n n

/-- Big-endian unsigned interpretation of a byte buffer (spec section 6). -/
def decodeBE (bs : List Nat) : Nat :=
  bs.foldl (fun acc b => acc * 256 + b) 0

/-- Little-endian byte expansion of a value, empty for zero. -/
def bytesLE (n : Nat) : List Nat := radixLEFuel 256 n n

/-- Minimal big-endian byte encoding of a non-negative integer
(spec section 6: the companion operation of decodeBE; zero encodes to the
empty sequence, and there is no leading zero byte). -/
def encodeBE (n : Nat) : List Nat := (bytesLE n).reverse

lemma radixLEFuel_zero (B f : Nat) : radixLEFuel B f 0 = [] := by
  cases f <;> simp [radixLEFuel]

lemma radixVal_radixLEFuel (B : Nat) (hB : 2 ≤ B) :
    ∀ f n, n ≤ f → radixVal B (radixLEFuel B f n) = n := by
  intro f
  induction f with
  | zero =>
    intro n hn
    have : n = 0 := Nat.le_zero.mp hn
    subst this
    simp [radixLEFuel, radixVal]
  | succ f ih =>
    intro n hn
    by_cases h0 : n = 0
    · subst h0; simp [radixLEFuel, radixVal]
    · have hBpos : 1 < B := lt_of_lt_of_le (by norm_num) hB
      have hdiv : n / B < n := Nat.div_lt_self (Nat.pos_of_ne_zero h0) hBpos
      have hle : n / B ≤ f := Nat.lt_succ_iff.mp (lt_of_lt_of_le hdiv hn)
      simp only [radixLEFuel, h0, if_false, radixVal, List.foldr_cons]
      have := ih (n / B) hle
      unfold radixVal at this
      rw [this, Nat.mod_add_div]

lemma lastNonzero_radixLEFuel (B : Nat) (hB : 2 ≤ B) :
    ∀ f n, n ≠ 0 → n ≤ f → lastNonzero (radixLEFuel B f n) = true := by
  intro f
  induction f with
  | zero =>
    intro n h0 hn
    exact absurd (Nat.le_zero.mp hn) h0
  | succ f ih =>
    intro n h0 hn
    have hBpos : 0 < B := lt_of_lt_of_le (by norm_num) hB
    simp only [radixLEFuel, h0, if_false]
    by_cases hq : n / B = 0
    · have hlt : n < B := (Nat.div_eq_zero_iff hBpos).mp hq
      rw [hq, radixLEFuel_zero]
      have : n % B = n := Nat.mod_eq_of_lt hlt
      simp [lastNonzero, this, h0]
    · have hdiv : n / B < n := Nat.div_lt_self (Nat.pos_of_ne_zero h0)
        (lt_of_lt_of_le (by norm_num) hB)
      have hle : n / B ≤ f := Nat.lt_succ_iff.mp (lt_of_lt_of_le hdiv hn)
      have htail := ih (n / B) hq hle
      cases hrest : radixLEFuel B f (n / B) with
      | nil => rw [hrest] at htail; simp [lastNonzero] at htail
      | cons d rest =>
        rw [hrest] at htail
        simp [lastNonzero, htail]

lemma radixVal_mpDigits (n : Nat) : radixVal DIGIT_BASE (mpDigits n) = n := by
  by_cases h : n = 0
  · subst h; simp [mpDigits, radixVal]
  · simp only [mpDigits, h, if_false]
    exact radixVal_radixLEFuel DIGIT_BASE (by norm_num [DIGIT_BASE]) n n le_rfl

lemma mpDigits_canonical (n : Nat) : isCanonical (mpDigits n) := by
  by_cases h : n = 0
  · subst h; left; simp [mpDigits]
  · right
    simp only [mpDigits, h, if_false]
    exact lastNonzero_radixLEFuel DIGIT_BASE (by norm_num [DIGIT_BASE]) n n h le_rfl

lemma decodeBE_replicate_zero_append (k : Nat) (b : List Nat) :
    decodeBE (List.replicate k 0 ++ b) = decodeBE b := by
  unfold decodeBE
  rw [List.foldl_append]
  congr 1
  induction k with
  | zero => simp
  | succ k ih => simpa [List.replicate_succ] using ih

lemma decodeBE_reverse (l : List Nat) : decodeBE l.reverse = radixVal 256 l := by
  induction l with
  | nil => simp [decodeBE, radixVal]
  | cons x l ih =>
    rw [List.reverse_cons]
    unfold decodeBE at ih ⊢
    rw [List.foldl_append]
    simp only [List.foldl_cons, List.foldl_nil, radixVal, List.foldr_cons]
    unfold radixVal at ih
    rw [ih]
    ring

lemma decodeBE_encodeBE (n : Nat) : decodeBE (encodeBE n) = n := by
  unfold encodeBE bytesLE
  rw [decodeBE_reverse]
  exact radixVal_radixLEFuel 256 (by norm_num) n n le_rfl

/-- Status code of the modelled operations (spec section 7: exactly success
and out-of-memory). -/
inductive mp_result
  | MP_OK
  | MP_MEMORY
deriving DecidableEq

open mp_result

/-- The mpz struct (spec section 3): sign flag, pointer to the digit array,
allocated capacity, and count of significant digits. -/
structure mpz where
  sign : Bool
  digitsPtr : Nat
  alloc : Nat
  used : Nat
deriving DecidableEq

/-- Machine state: byte buffers, mpz structs and digit arrays addressed by
numbers, plus the next fresh digit-storage address. -/
structure State where
  bufMem : Nat → List Nat
  zMem : Nat → mpz
  digMem : Nat → List Nat
  next : Nat

/-- Overwrite the digit array at address p. -/
def State.writeDig (s : State) (p : Nat) (ds : List Nat) : State :=
  { s with digMem := fun q => if q = p then ds else s.digMem q }

/-- Overwrite the mpz struct at address z. -/
def State.writeZ (s : State) (z : Nat) (m : mpz) : State :=
  { s with zMem := fun w => if w = z then m else s.zMem w }

/-- Advance the fresh-address counter after an allocation. -/
def State.bumpNext (s : State) : State :=
  { s with next := s.next + 1 }

/-- Significant digits of the mpz at address z. -/
def sigDigits (s : State) (z : Nat) : List Nat :=
  (s.digMem (s.zMem z).digitsPtr).take (s.zMem z).used

/-- Magnitude of the mpz at address z. -/
def zMag (s : State) (z : Nat) : Nat :=
  radixVal DIGIT_BASE (sigDigits s z)

/-- Signed numeric value of the mpz at address z (sign-magnitude). -/
def zVal (s : State) (z : Nat) : Int :=
  if (s.zMem z).sign then -(zMag s z : Int) else (zMag s z : Int)

/-- Modelled from the spec: store the canonical digit sequence of magnitude n
with the given sign into the already-initialized mpz at address z, reusing
its backing storage when the capacity suffices and growing (allocating fresh
storage) otherwise (spec section 4.3); the oom flag models allocation
exhaustion, which surfaces as MP_MEMORY (spec section 7). -/
def storeValue (oom : Bool) (z : Nat) (sg : Bool) (n : Nat) (s : State) :
    mp_result × State :=
  if (mpDigits n).length ≤ (s.zMem z).alloc then
    (MP_OK,
      (s.writeDig (s.zMem z).digitsPtr (mpDigits n)).writeZ z
        ⟨sg, (s.zMem z).digitsPtr, (s.zMem z).alloc, (mpDigits n).length⟩)
  else if oom then (MP_MEMORY, s)
  else
    (MP_OK,
      ((s.writeDig s.next (mpDigits n)).bumpNext).writeZ z
        ⟨sg, s.next, (mpDigits n).length, (mpDigits n).length⟩)

/-- Modelled from the spec: mp_int_read_unsigned, the vendored imath function
that is not under src/ — it populates the mpz at z with the non-negative
value obtained by reading len bytes at bufPtr as a big-endian unsigned
magnitude (spec sections 4.1 and 6), writing nothing to the buffer. -/
def mp_int_read_unsigned (oom : Bool) (z bufPtr len : Nat) (s : State) :
    mp_result × State :=
  storeValue oom z false (decodeBE ((s.bufMem bufPtr).take len)) s

/-- Modelled from the spec: mp_int_init_copy, the vendored imath function that
is not under src/ — it initializes the brand-new mpz at z as a deep copy of
the mpz at old, always allocating fresh digit storage for the new instance
(spec section 4.2), and reads but never writes the source. -/
def mp_int_init_copy (oom : Bool) (z old : Nat) (s : State) :
    mp_result × State :=
  if oom then (MP_MEMORY, s)
  else
    (MP_OK,
      ((s.writeDig s.next (mpDigits (zMag s old))).bumpNext).writeZ z
        ⟨(s.zMem old).sign, s.next, (mpDigits (zMag s old)).length,
          (mpDigits (zMag s old)).length⟩)

/-- Modelled from the spec: mp_int_copy, the vendored imath function that is
not under src/ — it overwrites the already-initialized mpz at c with a deep
copy of the value of the mpz at a (spec section 4.3), reading but never
writing the source. -/
def mp_int_copy (oom : Bool) (a c : Nat) (s : State) : mp_result × State :=
  storeValue oom c (s.zMem a).sign (zMag s a) s

/-- Modelled from the spec: a generic in-place mutation of an initialized
value (spec section 3: values are mutated in place only by arithmetic or
copy operations; this stands for the result write of such an operation). -/
def mp_int_set_value (oom : Bool) (z n : Nat) (s : State) :
    mp_result × State :=
  storeValue oom z false n s

/-- mp_int_read_const_unsigned (src/imath/imath+additions.c line 36): casts
the const away from buf — the identity in this model — and delegates to
mp_int_read_unsigned on the same arguments. -/
def mp_int_read_const_unsigned (oom : Bool) (z bufPtr len : Nat) (s : State) :
    mp_result × State :=
  mp_int_read_unsigned oom z bufPtr len s

/-- mp_int_init_const_copy (src/imath/imath+additions.c line 49): casts the
const away from old and delegates to mp_int_init_copy on the same
arguments. -/
def mp_int_init_const_copy (oom : Bool) (z old : Nat) (s : State) :
    mp_result × State :=
  mp_int_init_copy oom z old s

/-- mp_int_const_copy (src/imath/imath+additions.c line 62): casts the const
away from a and delegates to mp_int_copy on the same arguments. -/
def mp_int_const_copy (oom : Bool) (a c : Nat) (s : State) :
    mp_result × State :=
  mp_int_copy oom a c s

/-- A concrete state for witnesses: every buffer holds b, every mpz points at
digit array 0 with capacity 1, holding value zero. -/
def mkState (b : List Nat) : State :=
  { bufMem := fun _ => b
    zMem := fun _ => ⟨false, 0, 1, 1⟩
    digMem := fun _ => [0]
    next := 1 }

/-- A concrete state for witnesses involving two distinct values: the mpz at
address 0 owns digit array 0, every other mpz owns digit array 1. -/
def mkState2 (b : List Nat) : State :=
  { bufMem := fun _ => b
    zMem := fun i => ⟨false, if i = 0 then 0 else 1, 1, 1⟩
    digMem := fun _ => [0]
    next := 2 }

lemma storeValue_bufMem (oom : Bool) (z : Nat) (sg : Bool) (n : Nat) (s : State) :
    ((storeValue oom z sg n s).2).bufMem = s.bufMem := by
  unfold storeValue
  by_cases h : (mpDigits n).length ≤ (s.zMem z).alloc <;>
    cases oom <;>
      simp [h, State.writeDig, State.writeZ, State.bumpNext]

lemma storeValue_frame (oom : Bool) (z : Nat) (sg : Bool) (n w : Nat) (s : State)
    (hwz : w ≠ z)
    (hptr : (s.zMem w).digitsPtr ≠ (s.zMem z).digitsPtr)
    (hlt : (s.zMem w).digitsPtr < s.next) :
    ((storeValue oom z sg n s).2).zMem w = s.zMem w
    ∧ ((storeValue oom z sg n s).2).digMem ((s.zMem w).digitsPtr)
        = s.digMem ((s.zMem w).digitsPtr) := by
  have hne : (s.zMem w).digitsPtr ≠ s.next := Nat.ne_of_lt hlt
  unfold storeValue
  by_cases h : (mpDigits n).length ≤ (s.zMem z).alloc <;>
    cases oom <;>
      simp [h, State.writeDig, State.writeZ, State.bumpNext, hwz, hptr, hne]

lemma storeValue_ok (z : Nat) (sg : Bool) (n : Nat) (s : State) :
    (storeValue false z sg n s).1 = MP_OK := by
  unfold storeValue
  by_cases h : (mpDigits n).length ≤ (s.zMem z).alloc <;> simp [h]

lemma storeValue_result (oom : Bool) (z : Nat) (sg : Bool) (n : Nat) (s : State) :
    (storeValue oom z sg n s).1 = MP_OK
    ∨ (storeValue oom z sg n s).1 = MP_MEMORY := by
  cases h : (storeValue oom z sg n s).1
  · exact Or.inl rfl
  · exact Or.inr rfl

lemma storeValue_mem_sigDigits (oom : Bool) (z : Nat) (sg : Bool) (n : Nat)
    (s : State) (hok : (storeValue oom z sg n s).1 = MP_OK) :
    sigDigits ((storeValue oom z sg n s).2) z = mpDigits n := by
  unfold storeValue at hok ⊢
  by_cases h : (mpDigits n).length ≤ (s.zMem z).alloc
  · simp [h, sigDigits, State.writeDig, State.writeZ, List.take_length]
  · cases oom
    · simp [h, sigDigits, State.writeDig, State.writeZ, State.bumpNext,
        List.take_length]
    · simp [h] at hok

lemma storeValue_zMag (z : Nat) (sg : Bool) (n : Nat) (s : State) :
    zMag ((storeValue false z sg n s).2) z = n := by
  unfold zMag
  rw [storeValue_mem_sigDigits false z sg n s (storeValue_ok z sg n s)]
  exact radixVal_mpDigits n

lemma storeValue_sign (z : Nat) (sg : Bool) (n : Nat) (s : State) :
    (((storeValue false z sg n s).2).zMem z).sign = sg := by
  unfold storeValue
  by_cases h : (mpDigits n).length ≤ (s.zMem z).alloc <;>
    simp [h, State.writeDig, State.writeZ, State.bumpNext]

lemma storeValue_next_le (oom : Bool) (z : Nat) (sg : Bool) (n : Nat) (s : State) :
    s.next ≤ ((storeValue oom z sg n s).2).next := by
  unfold storeValue
  by_cases h : (mpDigits n).length ≤ (s.zMem z).alloc <;>
    cases oom <;>
      simp [h, State.writeDig, State.writeZ, State.bumpNext]

lemma storeValue_ptr_self (oom : Bool) (z : Nat) (sg : Bool) (n : Nat) (s : State) :
    (((storeValue oom z sg n s).2).zMem z).digitsPtr = (s.zMem z).digitsPtr
    ∨ (((storeValue oom z sg n s).2).zMem z).digitsPtr = s.next := by
  unfold storeValue
  by_cases h : (mpDigits n).length ≤ (s.zMem z).alloc
  · left; simp [h, State.writeDig, State.writeZ]
  · cases oom
    · right; simp [h, State.writeDig, State.writeZ, State.bumpNext]
    · left; simp [h]

lemma storeValue_ptr_lt (oom : Bool) (z : Nat) (sg : Bool) (n : Nat) (s : State)
    (hlt : (s.zMem z).digitsPtr < s.next) :
    (((storeValue oom z sg n s).2).zMem z).digitsPtr
      < ((storeValue oom z sg n s).2).next := by
  unfold storeValue
  by_cases h : (mpDigits n).length ≤ (s.zMem z).alloc
  · simpa [h, State.writeDig, State.writeZ] using hlt
  · cases oom
    · simp [h, State.writeDig, State.writeZ, State.bumpNext]
    · simpa [h] using hlt

lemma zVal_eq_of_frame (s t : State) (w : Nat)
    (h1 : t.zMem w = s.zMem w)
    (h2 : t.digMem ((s.zMem w).digitsPtr) = s.digMem ((s.zMem w).digitsPtr)) :
    zVal t w = zVal s w := by
  unfold zVal zMag sigDigits
  rw [h1, h2]

lemma init_copy_frame (oom : Bool) (z old w : Nat) (s : State)
    (hwz : w ≠ z) (hlt : (s.zMem w).digitsPtr < s.next) :
    ((mp_int_init_copy oom z old s).2).zMem w = s.zMem w
    ∧ ((mp_int_init_copy oom z old s).2).digMem ((s.zMem w).digitsPtr)
        = s.digMem ((s.zMem w).digitsPtr) := by
  have hne : (s.zMem w).digitsPtr ≠ s.next := Nat.ne_of_lt hlt
  cases oom <;>
    simp [mp_int_init_copy, State.writeDig, State.writeZ, State.bumpNext, hwz, hne]

lemma init_copy_ok (z old : Nat) (s : State) :
    (mp_int_init_copy false z old s).1 = MP_OK := by
  simp [mp_int_init_copy]

lemma init_copy_result (oom : Bool) (z old : Nat) (s : State) :
    (mp_int_init_copy oom z old s).1 = MP_OK
    ∨ (mp_int_init_copy oom z old s).1 = MP_MEMORY := by
  cases h : (mp_int_init_copy oom z old s).1
  · exact Or.inl rfl
  · exact Or.inr rfl

lemma init_copy_sigDigits (z old : Nat) (s : State) :
    sigDigits ((mp_int_init_copy false z old s).2) z = mpDigits (zMag s old) := by
  simp [mp_int_init_copy, sigDigits, State.writeDig, State.writeZ,
    State.bumpNext, List.take_length]

lemma init_copy_mem_sigDigits (oom : Bool) (z old : Nat) (s : State)
    (hok : (mp_int_init_copy oom z old s).1 = MP_OK) :
    sigDigits ((mp_int_init_copy oom z old s).2) z = mpDigits (zMag s old) := by
  cases oom
  · exact init_copy_sigDigits z old s
  · simp [mp_int_init_copy] at hok

lemma init_copy_zMag (z old : Nat) (s : State) :
    zMag ((mp_int_init_copy false z old s).2) z = zMag s old := by
  unfold zMag
  rw [init_copy_sigDigits]
  exact radixVal_mpDigits _

lemma init_copy_sign (z old : Nat) (s : State) :
    (((mp_int_init_copy false z old s).2).zMem z).sign = (s.zMem old).sign := by
  simp [mp_int_init_copy, State.writeZ, State.writeDig, State.bumpNext]

lemma init_copy_ptr (z old : Nat) (s : State) :
    (((mp_int_init_copy false z old s).2).zMem z).digitsPtr = s.next := by
  simp [mp_int_init_copy, State.writeZ, State.writeDig, State.bumpNext]

lemma init_copy_next (z old : Nat) (s : State) :
    ((mp_int_init_copy false z old s).2).next = s.next + 1 := by
  simp [mp_int_init_copy, State.writeZ, State.writeDig, State.bumpNext]

lemma init_copy_bufMem (oom : Bool) (z old : Nat) (s : State) :
    ((mp_int_init_copy oom z old s).2).bufMem = s.bufMem := by
  cases oom <;>
    simp [mp_int_init_copy, State.writeZ, State.writeDig, State.bumpNext]

lemma storeValue_fits (oom : Bool) (z : Nat) (sg : Bool) (n : Nat) (s : State)
    (hfit : (mpDigits n).length ≤ (s.zMem z).alloc) :
    storeValue oom z sg n s
      = (MP_OK,
          (s.writeDig (s.zMem z).digitsPtr (mpDigits n)).writeZ z
            ⟨sg, (s.zMem z).digitsPtr, (s.zMem z).alloc, (mpDigits n).length⟩) := by
  unfold storeValue
  simp [hfit]

/-- C1: the three const operations never mutate their const source: reading
leaves every byte buffer byte-for-byte unchanged, and both copy operations
leave the source mpz struct and its digit storage unchanged. -/
theorem C1_no_source_mutation (oom : Bool) (s : State)
    (z bufPtr len zi old a c : Nat)
    (hzo : old ≠ zi) (hlto : (s.zMem old).digitsPtr < s.next)
    (hac : a ≠ c) (hpac : (s.zMem a).digitsPtr ≠ (s.zMem c).digitsPtr)
    (hlta : (s.zMem a).digitsPtr < s.next) :
    ((mp_int_read_const_unsigned oom z bufPtr len s).2).bufMem = s.bufMem
    ∧ ((mp_int_init_const_copy oom zi old s).2).zMem old = s.zMem old
    ∧ ((mp_int_init_const_copy oom zi old s).2).digMem ((s.zMem old).digitsPtr)
        = s.digMem ((s.zMem old).digitsPtr)
    ∧ ((mp_int_const_copy oom a c s).2).zMem a = s.zMem a
    ∧ ((mp_int_const_copy oom a c s).2).digMem ((s.zMem a).digitsPtr)
        = s.digMem ((s.zMem a).digitsPtr) :=
  ⟨storeValue_bufMem oom z false (decodeBE ((s.bufMem bufPtr).take len)) s,
   (init_copy_frame oom zi old old s hzo hlto).1,
   (init_copy_frame oom zi old old s hzo hlto).2,
   (storeValue_frame oom c (s.zMem a).sign (zMag s a) a s hac hpac hlta).1,
   (storeValue_frame oom c (s.zMem a).sign (zMag s a) a s hac hpac hlta).2⟩

theorem C1_no_source_mutation_witness :
    ((mp_int_const_copy false 0 1 (mkState2 [1, 0])).2).zMem 0
      = (mkState2 [1, 0]).zMem 0 :=
  (C1_no_source_mutation false (mkState2 [1, 0]) 0 0 2 1 0 0 1
    (by decide) (by decide) (by decide) (by decide) (by decide)).2.2.2.1

/-- C2: each wrapper returns exactly the result of the underlying imath
function applied to the same arguments with the const qualifier cast away
(the cast is the identity in this model), and has no observable effect of
its own: the functions are equal. -/
theorem C2_wrapper_refinement :
    mp_int_read_const_unsigned = mp_int_read_unsigned
    ∧ mp_int_init_const_copy = mp_int_init_copy
    ∧ mp_int_const_copy = mp_int_copy :=
  ⟨rfl, rfl, rfl⟩

/-- C3: every operation reports its outcome explicitly as a status code with
exactly the two outcomes MP_OK and MP_MEMORY, and construction from a byte
buffer never fails on the content of the input bytes: whenever allocation
does not fail it returns MP_OK for every byte pattern. -/
theorem C3_status_codes (oom : Bool) (s : State)
    (z bufPtr len zi old a c : Nat) :
    ((mp_int_read_const_unsigned oom z bufPtr len s).1 = MP_OK
      ∨ (mp_int_read_const_unsigned oom z bufPtr len s).1 = MP_MEMORY)
    ∧ ((mp_int_init_const_copy oom zi old s).1 = MP_OK
      ∨ (mp_int_init_const_copy oom zi old s).1 = MP_MEMORY)
    ∧ ((mp_int_const_copy oom a c s).1 = MP_OK
      ∨ (mp_int_const_copy oom a c s).1 = MP_MEMORY)
    ∧ (oom = false →
        (mp_int_read_const_unsigned oom z bufPtr len s).1 = MP_OK) := by
  refine ⟨storeValue_result oom z false _ s, init_copy_result oom zi old s,
    storeValue_result oom c _ _ s, ?_⟩
  rintro rfl
  exact storeValue_ok z false _ s

theorem C3_status_codes_witness :
    (mp_int_read_const_unsigned false 0 0 3 (mkState [255, 255, 255])).1
      = MP_OK :=
  (C3_status_codes false (mkState [255, 255, 255]) 0 0 3 0 0 0 0).2.2.2 rfl

/-- C4: constructing a value from a zero-length byte buffer succeeds and
yields the numeric value zero. -/
theorem C4_empty_buffer_zero (oom : Bool) (s : State) (z bufPtr : Nat)
    (halloc : 1 ≤ (s.zMem z).alloc) :
    (mp_int_read_const_unsigned oom z bufPtr 0 s).1 = MP_OK
    ∧ zVal ((mp_int_read_const_unsigned oom z bufPtr 0 s).2) z = 0 := by
  have hfit : (mpDigits (decodeBE ((s.bufMem bufPtr).take 0))).length
      ≤ (s.zMem z).alloc := by
    simpa [decodeBE, mpDigits] using halloc
  unfold mp_int_read_const_unsigned mp_int_read_unsigned
  rw [storeValue_fits oom z false (decodeBE ((s.bufMem bufPtr).take 0)) s hfit]
  refine ⟨rfl, ?_⟩
  simp [zVal, zMag, sigDigits, State.writeDig, State.writeZ, decodeBE, mpDigits,
    radixVal, List.take_length]

theorem C4_empty_buffer_zero_witness :
    (mp_int_read_const_unsigned true 0 0 0 (mkState [])).1 = MP_OK
    ∧ zVal ((mp_int_read_const_unsigned true 0 0 0 (mkState [])).2) 0 = 0 :=
  C4_empty_buffer_zero true (mkState []) 0 0 (by decide)

/-- C5: leading-zero invariance: reading a buffer holding b and reading a
buffer holding k zero bytes prepended to b yield numerically equal values. -/
theorem C5_leading_zero_invariance (k : Nat) (b : List Nat)
    (s1 s2 : State) (z1 p1 z2 p2 : Nat)
    (h1 : s1.bufMem p1 = b)
    (h2 : s2.bufMem p2 = List.replicate k 0 ++ b) :
    zMag ((mp_int_read_const_unsigned false z1 p1 b.length s1).2) z1
      = zMag ((mp_int_read_const_unsigned false z2 p2 (k + b.length) s2).2) z2 := by
  unfold mp_int_read_const_unsigned mp_int_read_unsigned
  rw [storeValue_zMag, storeValue_zMag, h1, h2, List.take_length]
  have hlen : (List.replicate k 0 ++ b).length = k + b.length := by simp
  rw [← hlen, List.take_length, decodeBE_replicate_zero_append]

theorem C5_leading_zero_invariance_witness :
    zMag ((mp_int_read_const_unsigned false 0 0 1 (mkState [2])).2) 0
      = zMag ((mp_int_read_const_unsigned false 0 0 2 (mkState [0, 2])).2) 0 :=
  C5_leading_zero_invariance 1 [2] (mkState [2]) (mkState [0, 2]) 0 0 0 0
    rfl rfl

/-- C6: big-endian unsigned decoding: the buffer [0x01, 0x00] decodes to 256,
the empty buffer to 0, the buffer [0x00, 0x01, 0x00] also to 256, and
decoding is exact and total: every byte sequence maps to exactly one integer
value. -/
theorem C6_big_endian_decoding :
    zMag ((mp_int_read_const_unsigned false 0 0 2 (mkState [1, 0])).2) 0 = 256
    ∧ zMag ((mp_int_read_const_unsigned false 0 0 0 (mkState [])).2) 0 = 0
    ∧ zMag ((mp_int_read_const_unsigned false 0 0 3 (mkState [0, 1, 0])).2) 0
        = 256
    ∧ ∀ bs : List Nat, ∃! n : Nat, decodeBE bs = n := by
  refine ⟨by decide, by decide, by decide,
    fun bs => ⟨decodeBE bs, rfl, fun y hy => hy.symm⟩⟩

/-- C7: after mp_int_const_copy succeeds, the destination holds the source's
numeric value and owns digit storage distinct from the source's. -/
theorem C7_copy_assign_value_and_storage (s : State) (a c : Nat)
    (hac : a ≠ c)
    (hptr : (s.zMem a).digitsPtr ≠ (s.zMem c).digitsPtr)
    (hlta : (s.zMem a).digitsPtr < s.next) :
    (mp_int_const_copy false a c s).1 = MP_OK
    ∧ zVal ((mp_int_const_copy false a c s).2) c = zVal s a
    ∧ (((mp_int_const_copy false a c s).2).zMem c).digitsPtr
        ≠ (((mp_int_const_copy false a c s).2).zMem a).digitsPtr := by
  unfold mp_int_const_copy mp_int_copy
  refine ⟨storeValue_ok c (s.zMem a).sign (zMag s a) s, ?_, ?_⟩
  · unfold zVal
    rw [storeValue_sign, storeValue_zMag]
  · have hframe := storeValue_frame false c (s.zMem a).sign (zMag s a) a s
      hac hptr hlta
    rw [hframe.1]
    rcases storeValue_ptr_self false c (s.zMem a).sign (zMag s a) s with h | h
    · rw [h]; exact hptr.symm
    · rw [h]; exact (Nat.ne_of_lt hlta).symm

theorem C7_copy_assign_value_and_storage_witness :
    (mp_int_const_copy false 0 1 (mkState2 [])).1 = MP_OK
    ∧ zVal ((mp_int_const_copy false 0 1 (mkState2 [])).2) 1
        = zVal (mkState2 []) 0
    ∧ (((mp_int_const_copy false 0 1 (mkState2 [])).2).zMem 1).digitsPtr
        ≠ (((mp_int_const_copy false 0 1 (mkState2 [])).2).zMem 0).digitsPtr :=
  C7_copy_assign_value_and_storage (mkState2 []) 0 1
    (by decide) (by decide) (by decide)

/-- C8: deep-copy independence: after copying the value at a into the value
at b, by assignment (mp_int_const_copy) or by initialization
(mp_int_init_const_copy), a subsequent in-place mutation of either one
leaves the other's numeric value unchanged. -/
theorem C8_deep_copy_independence (s : State) (a b n : Nat)
    (hab : a ≠ b)
    (hptr : (s.zMem a).digitsPtr ≠ (s.zMem b).digitsPtr)
    (hlta : (s.zMem a).digitsPtr < s.next)
    (hltb : (s.zMem b).digitsPtr < s.next) :
    zVal ((mp_int_set_value false a n ((mp_int_const_copy false a b s).2)).2) b
      = zVal ((mp_int_const_copy false a b s).2) b
    ∧ zVal ((mp_int_set_value false b n ((mp_int_const_copy false a b s).2)).2) a
      = zVal ((mp_int_const_copy false a b s).2) a
    ∧ zVal ((mp_int_set_value false a n
          ((mp_int_init_const_copy false b a s).2)).2) b
      = zVal ((mp_int_init_const_copy false b a s).2) b
    ∧ zVal ((mp_int_set_value false b n
          ((mp_int_init_const_copy false b a s).2)).2) a
      = zVal ((mp_int_init_const_copy false b a s).2) a := by
  have hA1 : ((mp_int_const_copy false a b s).2).zMem a = s.zMem a
      ∧ ((mp_int_const_copy false a b s).2).digMem ((s.zMem a).digitsPtr)
        = s.digMem ((s.zMem a).digitsPtr) :=
    storeValue_frame false b (s.zMem a).sign (zMag s a) a s hab hptr hlta
  have hptrA1 : (((mp_int_const_copy false a b s).2).zMem a).digitsPtr
      = (s.zMem a).digitsPtr := by rw [hA1.1]
  have hselfb : (((mp_int_const_copy false a b s).2).zMem b).digitsPtr
        = (s.zMem b).digitsPtr
      ∨ (((mp_int_const_copy false a b s).2).zMem b).digitsPtr = s.next :=
    storeValue_ptr_self false b (s.zMem a).sign (zMag s a) s
  have hlt1b : (((mp_int_const_copy false a b s).2).zMem b).digitsPtr
      < ((mp_int_const_copy false a b s).2).next :=
    storeValue_ptr_lt false b (s.zMem a).sign (zMag s a) s hltb
  have hnext1 : s.next ≤ ((mp_int_const_copy false a b s).2).next :=
    storeValue_next_le false b (s.zMem a).sign (zMag s a) s
  have hptr1 : (((mp_int_const_copy false a b s).2).zMem a).digitsPtr
      ≠ (((mp_int_const_copy false a b s).2).zMem b).digitsPtr := by
    rw [hptrA1]
    rcases hselfb with h | h
    · rw [h]; exact hptr
    · rw [h]; exact Nat.ne_of_lt hlta
  have hlt1a : (((mp_int_const_copy false a b s).2).zMem a).digitsPtr
      < ((mp_int_const_copy false a b s).2).next := by
    rw [hptrA1]; exact lt_of_lt_of_le hlta hnext1
  have hf1 := storeValue_frame false a false n b
    ((mp_int_const_copy false a b s).2) hab.symm hptr1.symm hlt1b
  have hf2 := storeValue_frame false b false n a
    ((mp_int_const_copy false a b s).2) hab hptr1 hlt1a
  have hA2 : ((mp_int_init_const_copy false b a s).2).zMem a = s.zMem a
      ∧ ((mp_int_init_const_copy false b a s).2).digMem ((s.zMem a).digitsPtr)
        = s.digMem ((s.zMem a).digitsPtr) :=
    init_copy_frame false b a a s hab hlta
  have hptrA2 : (((mp_int_init_const_copy false b a s).2).zMem a).digitsPtr
      = (s.zMem a).digitsPtr := by rw [hA2.1]
  have hptr2b : (((mp_int_init_const_copy false b a s).2).zMem b).digitsPtr
      = s.next := init_copy_ptr b a s
  have hnext2 : ((mp_int_init_const_copy false b a s).2).next = s.next + 1 :=
    init_copy_next b a s
  have hptr2 : (((mp_int_init_const_copy false b a s).2).zMem a).digitsPtr
      ≠ (((mp_int_init_const_copy false b a s).2).zMem b).digitsPtr := by
    rw [hptrA2, hptr2b]; exact Nat.ne_of_lt hlta
  have hlt2a : (((mp_int_init_const_copy false b a s).2).zMem a).digitsPtr
      < ((mp_int_init_const_copy false b a s).2).next := by
    rw [hptrA2, hnext2]; exact lt_trans hlta (Nat.lt_succ_self _)
  have hlt2b : (((mp_int_init_const_copy false b a s).2).zMem b).digitsPtr
      < ((mp_int_init_const_copy false b a s).2).next := by
    rw [hptr2b, hnext2]; exact Nat.lt_succ_self _
  have hf3 := storeValue_frame false a false n b
    ((mp_int_init_const_copy false b a s).2) hab.symm hptr2.symm hlt2b
  have hf4 := storeValue_frame false b false n a
    ((mp_int_init_const_copy false b a s).2) hab hptr2 hlt2a
  exact ⟨zVal_eq_of_frame _ _ b hf1.1 hf1.2, zVal_eq_of_frame _ _ a hf2.1 hf2.2,
    zVal_eq_of_frame _ _ b hf3.1 hf3.2, zVal_eq_of_frame _ _ a hf4.1 hf4.2⟩

theorem C8_deep_copy_independence_witness :
    zVal ((mp_int_set_value false 0 7 ((mp_int_const_copy false 0 1
        (mkState2 [])).2)).2) 1
      = zVal ((mp_int_const_copy false 0 1 (mkState2 [])).2) 1 :=
  (C8_deep_copy_independence (mkState2 []) 0 1 7
    (by decide) (by decide) (by decide) (by decide)).1

/-- C9: round-trip: reading the minimal big-endian byte encoding of any
non-negative integer n through mp_int_read_const_unsigned and re-encoding
the stored value reproduces the original byte sequence exactly, with no
extra or missing leading zero bytes. -/
theorem C9_round_trip (n : Nat) (s : State) (z p : Nat)
    (hbuf : s.bufMem p = encodeBE n) :
    encodeBE
        (zMag ((mp_int_read_const_unsigned false z p (encodeBE n).length s).2) z)
      = encodeBE n := by
  unfold mp_int_read_const_unsigned mp_int_read_unsigned
  rw [storeValue_zMag, hbuf, List.take_length, decodeBE_encodeBE]

theorem C9_round_trip_witness :
    encodeBE (zMag ((mp_int_read_const_unsigned false 0 0
        (encodeBE 256).length (mkState (encodeBE 256))).2) 0)
      = encodeBE 256 :=
  C9_round_trip 256 (mkState (encodeBE 256)) 0 0 rfl

/-- C10: every value produced or overwritten by the three operations is in
canonical form: its significant digit sequence has no non-significant
leading zero digits beyond the single zero digit representing zero itself. -/
theorem C10_canonical_outputs (oom : Bool) (s : State)
    (z bufPtr len zi old a c : Nat) :
    ((mp_int_read_const_unsigned oom z bufPtr len s).1 = MP_OK →
      isCanonical (sigDigits ((mp_int_read_const_unsigned oom z bufPtr len s).2) z))
    ∧ ((mp_int_init_const_copy oom zi old s).1 = MP_OK →
      isCanonical (sigDigits ((mp_int_init_const_copy oom zi old s).2) zi))
    ∧ ((mp_int_const_copy oom a c s).1 = MP_OK →
      isCanonical (sigDigits ((mp_int_const_copy oom a c s).2) c)) := by
  refine ⟨fun h => ?_, fun h => ?_, fun h => ?_⟩
  · show isCanonical (sigDigits ((storeValue oom z false
      (decodeBE ((s.bufMem bufPtr).take len)) s).2) z)
    rw [storeValue_mem_sigDigits oom z false
      (decodeBE ((s.bufMem bufPtr).take len)) s h]
    exact mpDigits_canonical _
  · show isCanonical (sigDigits ((mp_int_init_copy oom zi old s).2) zi)
    rw [init_copy_mem_sigDigits oom zi old s h]
    exact mpDigits_canonical _
  · show isCanonical (sigDigits ((storeValue oom c (s.zMem a).sign
      (zMag s a) s).2) c)
    rw [storeValue_mem_sigDigits oom c (s.zMem a).sign (zMag s a) s h]
    exact mpDigits_canonical _

theorem C10_canonical_outputs_witness :
    isCanonical
      (sigDigits ((mp_int_read_const_unsigned false 0 0 2 (mkState [1, 0])).2) 0) :=
  (C10_canonical_outputs false (mkState [1, 0]) 0 0 2 0 0 0 0).1 (by decide)
